import Mathlib

/-!
InspRecovery: boot-time recovery check (`checkrecovery.cpp`)

A shallow embedding of `checkRecovery` (Qt/C++) and proofs about it.

* `QString` / `QByteArray` values are lists of characters.
* The Qt string primitives the source calls (`QString::remove`, `QString::split`,
  `QByteArray::contains`, `QTextStream::readLine`) are modelled after the Qt
  documentation: `remove(str)` deletes *every* occurrence of `str`, `split(sep)` cuts at
  *every* occurrence of `sep` and keeps empty parts.
* The filesystem is a finite map from absolute path strings to nodes.
* External programs (`find`, `sha1sum`) are a parameter (`Env.exec`).
* `QList::operator[]` with an index that is out of range is a fault (`Fault.indexOutOfRange`).
* A run is a function on `World`, the filesystem together with the list of the calls made
  so far (`Event`); log output (`qWarning`, `qCritical`) is left out.
-/

namespace InspRecovery

/-- Qt strings and byte arrays, as character lists. -/
abbrev QString := List Char

/-! ## Qt string primitives -/

/-- Worker of `qRemove`: the counter is the number of characters of a matched occurrence
that still have to be dropped. -/
def removeAux (pat : QString) : Nat → QString → QString
  | _, [] => []
  | k + 1, _ :: cs => removeAux pat k cs
  | 0, c :: cs =>
    if pat.isPrefixOf (c :: cs) then removeAux pat (pat.length - 1) cs
    else c :: removeAux pat 0 cs

/-- Model of `QString::remove(const QString &str)`: removes every occurrence of `str`,
scanning from the left; an empty `str` removes nothing. -/
def qRemove (pat s : QString) : QString :=
  if pat = [] then s else removeAux pat 0 s

/-- Puts a character in front of the first segment of a split result. -/
def prependHead (c : Char) : List QString → List QString
  | [] => [[c]]
  | seg :: rest => (c :: seg) :: rest

/-- Worker of `qSplit`; the counter is as in `removeAux`. -/
def splitAux (sep : QString) : Nat → QString → List QString
  | _, [] => [[]]
  | k + 1, _ :: cs => splitAux sep k cs
  | 0, c :: cs =>
    if sep.isPrefixOf (c :: cs) then [] :: splitAux sep (sep.length - 1) cs
    else prependHead c (splitAux sep 0 cs)

/-- Model of `QString::split(sep)` / `QByteArray::split(char)` with the default
`KeepEmptyParts`: the string is cut wherever `sep` occurs; a string without `sep` gives a
one-element list. -/
def qSplit (sep s : QString) : List QString :=
  if sep = [] then ([] :: s.map fun c => [c]) ++ [[]] else splitAux sep 0 s

/-- Model of reading a text file with `QTextStream::readLine` until `atEnd()`: lines end at
a line feed, a carriage return right before the line feed belongs to the line end, and
text after the last line feed is a line of its own when it is not empty. -/
def textLines : QString → List QString
  | [] => []
  | c :: cs =>
    match cs with
    | [] => if c = '\n' then [[]] else [[c]]
    | c2 :: cs2 =>
      if c = '\n' then [] :: textLines (c2 :: cs2)
      else if c = '\r' ∧ c2 = '\n' then [] :: textLines cs2
      else prependHead c (textLines (c2 :: cs2))

/-! ## Configuration constants (`checkrecovery.cpp`, lines 10-19) -/

/-- The root of the recovery partition (the mirror root). -/
def RECOVERY_DIR : QString := "/mnt/recovery".toList
def CHECKSUM_FILE : QString := "sha1sum.sha1".toList
def WARNING_SPLASH : QString := "warning_splash.bmp".toList

/-- Separator of the checksum list: two spaces (`split("  ")`). -/
def TWO_SPACES : QString := "  ".toList

/-- The absolute path of the checksum list: `RECOVERY_DIR + "/" + CHECKSUM_FILE`. -/
def checksumPath : QString := RECOVERY_DIR ++ '/' :: CHECKSUM_FILE

/-- Command name of the hashing program, as written in the calls of `execCmdLine`. -/
def SHA1SUM : QString := "sha1sum".toList

/-- Command name of the enumeration program. -/
def FIND : QString := "find".toList

/-- What a path can name: a regular file with its content, a symbolic link with its target,
or a directory. -/
inductive Node where
  | file (content : QString)
  | link (target : QString)
  | dir
  deriving DecidableEq, Repr

/-- A filesystem: the bindings of paths to nodes. -/
abbrev FS := List (QString × Node)

/-- The node bound to a path, without following links. -/
def lookup : FS → QString → Option Node
  | [], _ => none
  | (q, n) :: rest, p => if q = p then some n else lookup rest p

/-- Removes the binding of a path. -/
def erase (fs : FS) (p : QString) : FS :=
  fs.filter fun e => decide (e.1 ≠ p)

/-- Binds a path to a node, replacing what it named. -/
def insert (fs : FS) (p : QString) (n : Node) : FS :=
  (p, n) :: erase fs p

/-- Number of links followed before a lookup gives up (the kernel's limit). -/
def SYMLINK_LIMIT : Nat := 40

/-- Follows symbolic links: the node a path finally names. -/
def resolve : Nat → FS → QString → Option Node
  | 0, _, _ => none
  | k + 1, fs, p =>
    match lookup fs p with
    | some (Node.link t) => resolve k fs t
    | r => r

/-- Longest path the operating system accepts (`PATH_MAX`). -/
def PATH_MAX : Nat := 4096

/-- Model of `QDir(path).exists()`: the path names a directory; a path of `PATH_MAX`
characters or more names nothing. -/
def qdirExists (fs : FS) (p : QString) : Bool :=
  decide (p.length < PATH_MAX) &&
    match resolve SYMLINK_LIMIT fs p with
    | some Node.dir => true
    | _ => false

/-- The directory part of a path: everything before the last slash. -/
def parentDir (p : QString) : QString :=
  ((p.reverse.dropWhile fun c => c ≠ '/').drop 1).reverse

/-- A file can be created at `p` when the directory holding it exists (the root always
does). -/
def parentExists (fs : FS) (p : QString) : Bool :=
  parentDir p = [] || qdirExists fs (parentDir p)

/-- The directories `QDir::mkpath(p)` has to provide: `p` and all its ancestors, written
without empty components. -/
def mkpathDirs (p : QString) : List QString :=
  (((qSplit ['/'] p).filter fun c => decide (c ≠ [])).inits.drop 1).map fun cs =>
    (cs.map fun c => '/' :: c).flatten

/-- Model of `QDir::mkpath(p)`: creates every directory of `mkpathDirs p` that is missing. -/
def qdirMkpath (fs : FS) (p : QString) : FS :=
  (mkpathDirs p).foldl (fun acc d => if lookup acc d = none then insert acc d Node.dir else acc) fs

/-- Model of `QFile::remove(path)`: unlinks a file or a symbolic link, fails on anything
else. -/
def qfileRemove (fs : FS) (p : QString) : FS :=
  match lookup fs p with
  | some (Node.file _) => erase fs p
  | some (Node.link _) => erase fs p
  | _ => fs

/-- Model of `QFile::symLinkTarget(path)`: the target of a link, empty for anything else. -/
def qfileSymLinkTarget (fs : FS) (p : QString) : QString :=
  match lookup fs p with
  | some (Node.link t) => t
  | _ => []

/-- Model of `QFile::link(target, dst)`: creates the link `dst`; fails when `dst` exists or
its directory does not. -/
def qfileLink (fs : FS) (target dst : QString) : FS :=
  if lookup fs dst = none ∧ parentExists fs dst then insert fs dst (Node.link target) else fs

/-- Model of `QFile::copy(src, dst)`: copies the content of a regular file; fails when `src`
is no regular file, when `dst` exists (it never overwrites) or when the directory of `dst`
does not exist. -/
def qfileCopy (fs : FS) (src dst : QString) : FS :=
  match resolve SYMLINK_LIMIT fs src with
  | some (Node.file c) =>
    if lookup fs dst = none ∧ parentExists fs dst then insert fs dst (Node.file c) else fs
  | _ => fs

/-- Calls that a run performs and that the claims speak about, in program order. -/
inductive Event where
  | displaySplash (type : QString)
  | execCmdLine (cmd : QString) (args : List QString)
  | copyFileToDestination (srcPath destPath : QString)
  | logToChecksumList (data : QString)
  | qdirRemove (dir name : QString)
  deriving DecidableEq, Repr

/-- The state of a run: the filesystem and the events so far. -/
structure World where
  fs : FS
  trace : List Event
  deriving DecidableEq, Repr

/-- External programs: the standard output of `cmd args` run on a filesystem. -/
structure Env where
  exec : FS → QString → List QString → QString

/-- Ways in which a run ends without returning. -/
inductive Fault where
  /-- Fault `QList::operator[]` with an index beyond the end of the list. -/
  | indexOutOfRange
  /-- The recursion budget of `copyFolderToFolder` is used up. -/
  | recursionLimit
  deriving DecidableEq, Repr

/-- Appends an event to the events of a run. -/
def record (e : Event) (w : World) : World :=
  { w with trace := w.trace ++ [e] }

/-! ## The class `checkRecovery` -/

/-- Source `checkRecovery::displaySplash` (lines 395-400). -/
def displaySplash (type : QString) (w : World) : World :=
  record (Event.displaySplash type) w

/-- Source `checkRecovery::fileExists` (lines 94-105): `exists() && isFile()`. -/
def fileExists (fs : FS) (path : QString) : Bool :=
  match resolve SYMLINK_LIMIT fs path with
  | some (Node.file _) => true
  | _ => false

/-- Source `checkRecovery::execCmdLine` (lines 341-359): standard output of the command. -/
def execCmdLine (env : Env) (cmd : QString) (args : List QString) (w : World) :
    QString × World :=
  (env.exec w.fs cmd args, record (Event.execCmdLine cmd args) w)

/-- The argument `generateParentDirectory` passes to `mkpath` (lines 263-264):
the last segment of `path.split("/")` is removed from `path` by `QString::remove`. -/
def parentDirectoryArg (path : QString) : QString :=
  qRemove ((qSplit ['/'] path).getLast?.getD []) path

/-- Source `checkRecovery::generateParentDirectory` (lines 260-268). -/
def generateParentDirectory (path : QString) (fs : FS) : FS :=
  qdirMkpath fs (parentDirectoryArg path)

/-- The effect of `copyFileToDestination` on the filesystem (lines 315-331). -/
def copyFileToDestinationFs (srcPath destPath : QString) (fs : FS) : FS :=
  let fs1 := if fileExists fs destPath then qfileRemove fs destPath else fs
  let fs2 := generateParentDirectory destPath fs1
  let srcSymLinkTarget := qfileSymLinkTarget fs2 srcPath
  if srcSymLinkTarget ≠ [] then
    qfileLink fs2 (qRemove RECOVERY_DIR srcSymLinkTarget) destPath
  else
    qfileCopy fs2 srcPath destPath

/-- Source `checkRecovery::copyFileToDestination` (lines 313-332). -/
def copyFileToDestination (srcPath destPath : QString) (w : World) : World :=
  { fs := copyFileToDestinationFs srcPath destPath w.fs,
    trace := w.trace ++ [Event.copyFileToDestination srcPath destPath] }

/-- Model of opening a file read-only and reading it line by line; `none` when `open`
fails. -/
def readLines (fs : FS) (path : QString) : Option (List QString) :=
  match resolve SYMLINK_LIMIT fs path with
  | some (Node.file c) => some (textLines c)
  | _ => none

/-- Body of the loop of `parseUpdateFile` (lines 121-139) for one line. -/
def parseUpdateLine (w : World) (file_path_raw : QString) : Except Fault World :=
  let fileInfo := qSplit [','] file_path_raw
  match fileInfo[0]?, fileInfo[1]?, fileInfo[2]? with
  | some type, some filename, some destination_path =>
    if destination_path ≠ RECOVERY_DIR then
      if type = "ADD".toList then
        Except.ok (copyFileToDestination (destination_path ++ '/' :: filename)
          (RECOVERY_DIR ++ destination_path ++ '/' :: filename) w)
      else Except.ok w
    else Except.ok w
  | _, _, _ => Except.error Fault.indexOutOfRange

/-- Model of `QFile::open(WriteOnly | Append)` followed by one write: appends to a regular
file, creates the file when it is missing and its directory exists, fails otherwise. -/
def appendToFile (fs : FS) (path data : QString) : FS :=
  match lookup fs path with
  | some (Node.file c) => insert fs path (Node.file (c ++ data))
  | none => if parentExists fs path then insert fs path (Node.file data) else fs
  | _ => fs

/-- Source `checkRecovery::logToChecksumList` (lines 366-385). -/
def logToChecksumList (data : QString) (w : World) : World :=
  let w0 := record (Event.logToChecksumList data) w
  { w0 with fs := appendToFile w0.fs checksumPath data }

/-- The path of the tested file (line 226): `recovery_path.remove(RECOVERY_DIR)`. -/
def rootfs_path (recovery_path : QString) : QString :=
  qRemove RECOVERY_DIR recovery_path

/-- The path field of a line (line 220): `recovery_sum_raw.split("  ")[1]`; `none` stands
for an index that is out of range. -/
def recovery_path (recovery_sum_raw : QString) : Option QString :=
  (qSplit TWO_SPACES recovery_sum_raw)[1]?

/-- The checksum field of a line (line 223): `recovery_sum_raw.split("  ")[0]`. -/
def recovery_sum (recovery_sum_raw : QString) : Option QString :=
  (qSplit TWO_SPACES recovery_sum_raw)[0]?

/-- Body of the loop of `checkForRecovery` (lines 217-249) for one line of the checksum
list. -/
def checkLine (env : Env) (w : World) (recovery_sum_raw : QString) : Except Fault World :=
  match recovery_path recovery_sum_raw, recovery_sum recovery_sum_raw with
  | some recovery_path, some recovery_sum =>
    if ¬ fileExists w.fs (rootfs_path recovery_path) then
      Except.ok (copyFileToDestination recovery_path (rootfs_path recovery_path)
        (displaySplash WARNING_SPLASH w))
    else
      let r := execCmdLine env SHA1SUM [rootfs_path recovery_path] w
      match (qSplit TWO_SPACES r.1)[0]? with
      | some rootfs_sum =>
        if rootfs_sum ≠ recovery_sum then
          Except.ok (copyFileToDestination recovery_path (rootfs_path recovery_path)
            (displaySplash WARNING_SPLASH r.2))
        else Except.ok r.2
      | none => Except.error Fault.indexOutOfRange
  | _, _ => Except.error Fault.indexOutOfRange

/-- Source `checkRecovery::checkForRecovery` (lines 209-253). -/
def checkForRecovery (env : Env) (w : World) : Except Fault World :=
  match readLines w.fs checksumPath with
  | some lines => lines.foldlM (checkLine env) w
  | none => Except.ok w

/-- Model of `QDir(dir).remove(name)`. -/
def qdirRemove (dir name : QString) (w : World) : World :=
  let w0 := record (Event.qdirRemove dir name) w
  { w0 with fs := qfileRemove w0.fs (dir ++ '/' :: name) }

/-- A stand-in digest for the examples: the letters and digits of the content. -/
def demoDigest (content : QString) : QString :=
  content.filter fun c => c.isAlphanum

/-- Paths below `root` whose node satisfies `keep`, one per line. -/
def demoFind (fs : FS) (root : QString) (keep : Node → Bool) : QString :=
  ((fs.filter fun e => (root ++ ['/']).isPrefixOf e.1 && keep e.2).map fun e =>
    e.1 ++ ['\n']).flatten

/-- External programs for the examples: `sha1sum` prints the stand-in digest of a regular
file and nothing for anything else, `find` lists the files or links below a directory. -/
def demoEnv : Env where
  exec := fun fs cmd args =>
    if cmd = SHA1SUM then
      match args with
      | [path] =>
        match resolve SYMLINK_LIMIT fs path with
        | some (Node.file c) => demoDigest c ++ TWO_SPACES ++ path ++ ['\n']
        | _ => []
      | _ => []
    else if cmd = FIND then
      match args with
      | [root, _, ty] =>
        if ty = "f".toList then
          demoFind fs root fun n => match n with
            | Node.file _ => true
            | _ => false
        else
          demoFind fs root fun n => match n with
            | Node.link _ => true
            | _ => false
      | _ => []
    else []

/-- The first field of a text cut at the two-space separator. -/
def firstField (text : QString) : QString :=
  (qSplit TWO_SPACES text).headD []

/-- The state after the loop body of `checkForRecovery` has handled one line with the path
field `m` and the checksum field `d`. -/
def afterLine (env : Env) (w : World) (m d : QString) : World :=
  if fileExists w.fs (rootfs_path m) then
    if firstField (env.exec w.fs SHA1SUM [rootfs_path m]) = d then
      record (Event.execCmdLine SHA1SUM [rootfs_path m]) w
    else
      copyFileToDestination m (rootfs_path m) (displaySplash WARNING_SPLASH
        (record (Event.execCmdLine SHA1SUM [rootfs_path m]) w))
  else
    copyFileToDestination m (rootfs_path m) (displaySplash WARNING_SPLASH w)

/-- The events of a repair of the path field `m`: the warning splash, then the copy from
the recovery partition to the tested path. -/
def repairBlock (m : QString) : List Event :=
  [Event.displaySplash WARNING_SPLASH, Event.copyFileToDestination m (rootfs_path m)]

/-- The call of the hasher on the tested path of the path field `m`. -/
def hashEvent (m : QString) : Event :=
  Event.execCmdLine SHA1SUM [rootfs_path m]

/-- The events the loop body of `checkForRecovery` adds for a line with fields `m`, `d`. -/
def lineEvents (env : Env) (w : World) (m d : QString) : List Event :=
  if fileExists w.fs (rootfs_path m) then
    if firstField (env.exec w.fs SHA1SUM [rootfs_path m]) = d then [hashEvent m]
    else hashEvent m :: repairBlock m
  else repairBlock m

/-- What the loop body of `checkForRecovery` may add to the events for a line: a repair
(the tested file is missing), one call of the hasher (the digests agree), or the call of
the hasher followed by a repair (the digests differ). -/
def LineOutcome (line : QString) (block : List Event) : Prop :=
  ∃ m, recovery_path line = some m ∧
    (block = repairBlock m ∨ block = [hashEvent m] ∨ block = hashEvent m :: repairBlock m)

/-- A filesystem for the examples: a recovery partition with two files of the application
tree, one of them a database, and a live tree whose copy of the other file differs. -/
def demoFs : FS :=
  [("/mnt".toList, Node.dir),
   ("/mnt/recovery".toList, Node.dir),
   ("/mnt/recovery/mnt".toList, Node.dir),
   ("/mnt/recovery/mnt/app".toList, Node.dir),
   ("/mnt/recovery/mnt/app/hm".toList, Node.file "v2".toList),
   ("/mnt/recovery/mnt/app/cfg.db".toList, Node.file "db".toList),
   ("/mnt/app".toList, Node.dir),
   ("/mnt/app/hm".toList, Node.file "v1".toList)]

/-- The example filesystem with a checksum list for the tracked file. -/
def demoFsWithList : FS :=
  (checksumPath, Node.file "v2  /mnt/recovery/mnt/app/hm\n".toList) :: demoFs

/-- The run from `w` to `w2` deletes nothing outside the paths `X`: a path not in `X` that
named something before names the same afterwards unless one of the added events is a copy
to that path. -/
def Keeps (X : List QString) (w w2 : World) : Prop :=
  ∃ t, w2.trace = w.trace ++ t ∧
    ∀ q n, lookup w.fs q = some n → q ∉ X →
      (∀ src, Event.copyFileToDestination src q ∉ t) → lookup w2.fs q = some n

theorem removeAux_drop (pat : QString) (k : Nat) (s : QString) :
    removeAux pat k s = removeAux pat 0 (s.drop k) := by
  induction s generalizing k with
  | nil => cases k <;> simp [removeAux]
  | cons c cs ih =>
    cases k with
    | zero => simp
    | succ k => simpa [removeAux] using ih k

theorem removeAux_append_left (pat s : QString) (hpat : pat ≠ []) :
    removeAux pat 0 (pat ++ s) = removeAux pat 0 s := by
  cases pat with
  | nil => exact absurd rfl hpat
  | cons p ps =>
    have hpre : (p :: ps).isPrefixOf (p :: (ps ++ s)) = true := by
      simp [List.isPrefixOf_iff_prefix]
    show removeAux (p :: ps) 0 (p :: (ps ++ s)) = _
    rw [removeAux, if_pos hpre, removeAux_drop]
    simp

theorem removeAux_of_no_occurrence (pat s : QString) (h : ¬ pat <:+: s) :
    removeAux pat 0 s = s := by
  induction s with
  | nil => simp [removeAux]
  | cons c cs ih =>
    have hpre : ¬ (pat.isPrefixOf (c :: cs) = true) := by
      intro hp
      exact h ((List.isPrefixOf_iff_prefix.mp hp).isInfix)
    have htail : ¬ pat <:+: cs := fun hi => h (List.infix_cons hi)
    rw [removeAux, if_neg hpre, ih htail]

/-- Removing a pattern from a string that starts with it continues with the rest. -/
theorem qRemove_append_left (pat s : QString) : qRemove pat (pat ++ s) = qRemove pat s := by
  unfold qRemove
  split
  · next h => simp [h]
  · next h => exact removeAux_append_left pat s h

/-- A string in which the pattern does not occur is left alone. -/
theorem qRemove_of_no_occurrence (pat s : QString) (h : ¬ pat <:+: s) : qRemove pat s = s := by
  unfold qRemove
  split
  · rfl
  · exact removeAux_of_no_occurrence pat s h

theorem splitAux_drop (sep : QString) (k : Nat) (s : QString) :
    splitAux sep k s = splitAux sep 0 (s.drop k) := by
  induction s generalizing k with
  | nil => cases k <;> simp [splitAux]
  | cons c cs ih =>
    cases k with
    | zero => simp
    | succ k => simpa [splitAux] using ih k

theorem splitAux_ne_nil (sep : QString) (k : Nat) (s : QString) : splitAux sep k s ≠ [] := by
  induction s generalizing k with
  | nil => cases k <;> simp [splitAux]
  | cons c cs ih =>
    cases k with
    | zero =>
      rw [splitAux]
      split
      · simp
      · cases h : splitAux sep 0 cs <;> simp [prependHead]
    | succ k => simpa [splitAux] using ih k

/-- A string without the separator is one segment. -/
theorem splitAux_of_no_occurrence (sep s : QString) (h : ¬ sep <:+: s) :
    splitAux sep 0 s = [s] := by
  induction s with
  | nil => simp [splitAux]
  | cons c cs ih =>
    have hpre : ¬ (sep.isPrefixOf (c :: cs) = true) := by
      intro hp
      exact h ((List.isPrefixOf_iff_prefix.mp hp).isInfix)
    have htail : ¬ sep <:+: cs := fun hi => h (List.infix_cons hi)
    rw [splitAux, if_neg hpre, ih htail]
    rfl

/-- When the first occurrence of the separator in `d ++ sep ++ p` is the one written
there, the first segment is `d` and the split goes on with `p`. -/
theorem splitAux_append_sep (sep d p : QString) (hsep : sep ≠ [])
    (hfirst : ∀ t, t ≠ [] → t <:+ d → ¬ sep <+: t ++ sep ++ p) :
    splitAux sep 0 (d ++ sep ++ p) = d :: splitAux sep 0 p := by
  induction d with
  | nil =>
    cases sep with
    | nil => exact absurd rfl hsep
    | cons c cs =>
      have hpre : (c :: cs).isPrefixOf (c :: (cs ++ p)) = true := by
        simp [List.isPrefixOf_iff_prefix]
      show splitAux (c :: cs) 0 (c :: (cs ++ p)) = _
      rw [splitAux, if_pos hpre, splitAux_drop]
      simp
  | cons c d ih =>
    have hpre : ¬ (sep.isPrefixOf (c :: (d ++ sep ++ p)) = true) := by
      intro hp
      have := hfirst (c :: d) (by simp) (List.suffix_refl _)
      exact this (by simpa using List.isPrefixOf_iff_prefix.mp hp)
    have ih2 := ih (fun t ht hsuf => hfirst t ht (hsuf.trans (List.suffix_cons c d)))
    show splitAux sep 0 (c :: (d ++ sep ++ p)) = _
    rw [splitAux, if_neg hpre, ih2]
    rfl

/-- For the two-space separator: a digest field without two spaces in a row that does not
end in a space is followed by the first separator of the line. -/
theorem twoSpaces_first (d p : QString) (hd : ¬ TWO_SPACES <:+: d)
    (hlast : d.getLast? ≠ some ' ') :
    ∀ t, t ≠ [] → t <:+ d → ¬ TWO_SPACES <+: t ++ TWO_SPACES ++ p := by
  intro t ht hsuf hpre
  match t, ht with
  | [c], _ =>
    have hc : c = ' ' := by
      have := hpre
      simp [TWO_SPACES, List.cons_prefix_cons] at this
      exact this.symm
    obtain ⟨u, hu⟩ := hsuf
    apply hlast
    rw [← hu, hc]
    simp
  | c1 :: c2 :: t2, _ =>
    have h12 : c1 = ' ' ∧ c2 = ' ' := by
      have := hpre
      simp [TWO_SPACES, List.cons_prefix_cons] at this
      exact ⟨this.1.symm, this.2.symm⟩
    apply hd
    have hin : TWO_SPACES <:+: c1 :: c2 :: t2 := by
      rw [h12.1, h12.2]
      exact ⟨[], t2, by simp [TWO_SPACES]⟩
    exact hin.trans hsuf.isInfix

/-- The fields of a well-formed line of the checksum list. -/
theorem qSplit_twoSpaces_record (d p : QString) (hd : ¬ TWO_SPACES <:+: d)
    (hlast : d.getLast? ≠ some ' ') :
    qSplit TWO_SPACES (d ++ TWO_SPACES ++ p) = d :: qSplit TWO_SPACES p := by
  have hsep : TWO_SPACES ≠ [] := by decide
  unfold qSplit
  rw [if_neg hsep]
  exact splitAux_append_sep TWO_SPACES d p hsep (twoSpaces_first d p hd hlast)

/-! ## Line parsing of the checksum list -/

/-- Claim C9, as the code has it: for a line `d ++ "  " ++ p` whose digest field `d` has no
two spaces in a row and does not end in a space, and whose path `p` has no two spaces in a
row, `checkForRecovery` reads the checksum `d` and the path `p`. -/
theorem checkLine_fields_of_record (d p : QString) (hd : ¬ TWO_SPACES <:+: d)
    (hlast : d.getLast? ≠ some ' ') (hp : ¬ TWO_SPACES <:+: p) :
    recovery_sum (d ++ TWO_SPACES ++ p) = some d ∧
      recovery_path (d ++ TWO_SPACES ++ p) = some p := by
  have hsep : TWO_SPACES ≠ [] := by decide
  have hsplit : qSplit TWO_SPACES (d ++ TWO_SPACES ++ p) = [d, p] := by
    rw [qSplit_twoSpaces_record d p hd hlast]
    unfold qSplit
    rw [if_neg hsep, splitAux_of_no_occurrence TWO_SPACES p hp]
  unfold recovery_sum recovery_path
  rw [hsplit]
  exact ⟨rfl, rfl⟩

theorem checkLine_fields_of_record_witness :
    recovery_sum ("7e737b16".toList ++ TWO_SPACES ++ "/mnt/recovery/mnt/app/bin/hm".toList)
        = some "7e737b16".toList ∧
      recovery_path ("7e737b16".toList ++ TWO_SPACES ++ "/mnt/recovery/mnt/app/bin/hm".toList)
        = some "/mnt/recovery/mnt/app/bin/hm".toList :=
  checkLine_fields_of_record "7e737b16".toList "/mnt/recovery/mnt/app/bin/hm".toList
    (by decide) (by decide) (by decide)

/-- Claim C9 as stated fails: a path with two spaces in a row is cut at its own two
spaces, and a digest field that ends in a space loses that space. -/
theorem checkLine_fields_counterexample :
    (¬ TWO_SPACES <:+: "7e73".toList ∧
      recovery_path ("7e73".toList ++ TWO_SPACES ++ "/mnt/recovery/a  b".toList)
        = some "/mnt/recovery/a".toList ∧
      recovery_path ("7e73".toList ++ TWO_SPACES ++ "/mnt/recovery/a  b".toList)
        ≠ some "/mnt/recovery/a  b".toList) ∧
    (¬ TWO_SPACES <:+: "7e73 ".toList ∧
      recovery_sum ("7e73 ".toList ++ TWO_SPACES ++ "/mnt/recovery/a".toList)
        = some "7e73".toList ∧
      recovery_sum ("7e73 ".toList ++ TWO_SPACES ++ "/mnt/recovery/a".toList)
        ≠ some "7e73 ".toList) := by
  decide

/-! ## Prefix removal -/

/-- Where the recovery directory occurs only at the start of a recovery path, the tested
path is the rest of the path. -/
theorem rootfs_path_of_single_occurrence (rest : QString) (h : ¬ RECOVERY_DIR <:+: rest) :
    rootfs_path (RECOVERY_DIR ++ rest) = rest := by
  unfold rootfs_path
  rw [qRemove_append_left, qRemove_of_no_occurrence _ _ h]

/-- Claim C4 (fails on the code): the tested path of a line is its path field with every
occurrence of the recovery directory removed, so a second occurrence inside the path is
lost and two different recovery paths give one tested path. -/
theorem rootfs_path_drops_inner_occurrence :
    rootfs_path (RECOVERY_DIR ++ "/mnt/app/old/mnt/recovery/cfg".toList)
        = "/mnt/app/old/cfg".toList ∧
      rootfs_path (RECOVERY_DIR ++ "/mnt/app/old/cfg".toList) = "/mnt/app/old/cfg".toList ∧
      recovery_path "7e73  /mnt/recovery/mnt/app/old/mnt/recovery/cfg".toList
        = some (RECOVERY_DIR ++ "/mnt/app/old/mnt/recovery/cfg".toList) := by
  decide

/-- Claim C5 (fails on the code): a link whose target contains the recovery directory
after its start is recreated with that occurrence removed, although the target does not
start with the recovery directory; and of a target that starts with the recovery directory
and contains it once more, both occurrences are removed. -/
theorem copyFileToDestination_rewrites_inner_occurrence :
    lookup (copyFileToDestination "/mnt/recovery/mnt/app/cur".toList "/mnt/app/cur".toList
        { fs := [("/mnt/recovery/mnt/app/cur".toList,
                  Node.link "/mnt/appdata/mnt/recovery/v2".toList)],
          trace := [] }).fs "/mnt/app/cur".toList
      = some (Node.link "/mnt/appdata/v2".toList) ∧
    lookup (copyFileToDestination "/mnt/recovery/mnt/app/cur".toList "/mnt/app/cur".toList
        { fs := [("/mnt/recovery/mnt/app/cur".toList,
                  Node.link (RECOVERY_DIR ++ "/mnt/app/mnt/recovery/v2".toList))],
          trace := [] }).fs "/mnt/app/cur".toList
      = some (Node.link "/mnt/app/v2".toList) := by
  decide

/-- Claim C10 (fails on the code): for the destination `/mnt/app/a` the directory handed
to `mkpath` is `/mnt/pp/`, not `/mnt/app/`: the file name is removed wherever it occurs in
the path. The parent directory is not created and the copy that follows fails. -/
theorem generateParentDirectory_wrong_directory :
    parentDirectoryArg "/mnt/app/a".toList = "/mnt/pp/".toList ∧
      parentDirectoryArg "/mnt/app/app".toList = "/mnt//".toList ∧
      lookup (generateParentDirectory "/mnt/app/a".toList []) "/mnt/app".toList = none ∧
      lookup (generateParentDirectory "/mnt/app/a".toList []) "/mnt/pp".toList
        = some Node.dir ∧
      lookup (copyFileToDestination "/mnt/recovery/mnt/app/a".toList "/mnt/app/a".toList
        { fs := [("/mnt/recovery/mnt/app/a".toList, Node.file "x".toList)],
          trace := [] }).fs "/mnt/app/a".toList = none := by
  decide

/-! ## Generation of the checksum list -/

theorem qSplit_ne_nil (sep s : QString) : qSplit sep s ≠ [] := by
  unfold qSplit
  split
  · simp
  · exact splitAux_ne_nil sep 0 s

theorem qSplit_zero (s : QString) : (qSplit TWO_SPACES s)[0]? = some (firstField s) := by
  unfold firstField
  cases h : qSplit TWO_SPACES s with
  | nil => exact absurd h (qSplit_ne_nil _ _)
  | cons a l => simp

theorem recovery_sum_eq (line : QString) : recovery_sum line = some (firstField line) :=
  qSplit_zero line

/-- A line with a path field is handled without a fault, in the way `afterLine` says. -/
theorem checkLine_eq_afterLine (env : Env) (w : World) (line m : QString)
    (hm : recovery_path line = some m) :
    checkLine env w line = Except.ok (afterLine env w m (firstField line)) := by
  unfold checkLine afterLine
  rw [hm, recovery_sum_eq]
  simp only [execCmdLine, qSplit_zero]
  by_cases hex : fileExists w.fs (rootfs_path m) = true
  · by_cases hsum : firstField (env.exec w.fs SHA1SUM [rootfs_path m]) = firstField line
    · simp [hex, hsum]
    · simp [hex, hsum, displaySplash]
  · simp [hex]

/-- A line without a path field stops the run. -/
theorem checkLine_fault (env : Env) (w : World) (line : QString)
    (hm : recovery_path line = none) :
    checkLine env w line = Except.error Fault.indexOutOfRange := by
  unfold checkLine
  rw [hm]

/-- Claim C8 (fails on the code): a line of the checksum list without the two-space
separator and an update line with fewer than three comma-separated fields, the empty line
included, are not skipped: the loop body indexes the split result out of range, whatever
the state, and the loop does not go on to the lines that follow. -/
theorem malformed_line_index_out_of_range (env : Env) (w : World) :
    (∀ line, ¬ TWO_SPACES <:+: line →
      checkLine env w line = Except.error Fault.indexOutOfRange) ∧
    (∀ line, (qSplit [','] line).length < 3 →
      parseUpdateLine w line = Except.error Fault.indexOutOfRange) ∧
    checkLine env w "7e737b16".toList = Except.error Fault.indexOutOfRange ∧
    checkLine env w [] = Except.error Fault.indexOutOfRange ∧
    parseUpdateLine w "ADD,healthmonitor".toList = Except.error Fault.indexOutOfRange ∧
    parseUpdateLine w [] = Except.error Fault.indexOutOfRange ∧
    (∀ rest, ("7e737b16".toList :: rest).foldlM (checkLine env) w =
      Except.error Fault.indexOutOfRange) ∧
    (∀ rest, ("ADD,healthmonitor".toList :: rest).foldlM parseUpdateLine w =
      Except.error Fault.indexOutOfRange) := by
  have hcheck : ∀ line, ¬ TWO_SPACES <:+: line →
      checkLine env w line = Except.error Fault.indexOutOfRange := by
    intro line hline
    apply checkLine_fault
    have hsep : TWO_SPACES ≠ [] := by decide
    unfold recovery_path qSplit
    rw [if_neg hsep, splitAux_of_no_occurrence TWO_SPACES line hline]
    rfl
  have hparse : ∀ line, (qSplit [','] line).length < 3 →
      parseUpdateLine w line = Except.error Fault.indexOutOfRange := by
    intro line hlen
    have h2 : (qSplit [','] line)[2]? = none := List.getElem?_eq_none (by omega)
    unfold parseUpdateLine
    simp only [h2]
    split
    · next h3 => cases h3
    · rfl
  refine ⟨hcheck, hparse, rfl, rfl, rfl, rfl, ?_, ?_⟩
  · intro rest
    rw [List.foldlM_cons, hcheck _ (by decide)]
    rfl
  · intro rest
    rw [List.foldlM_cons, hparse _ (by decide)]
    rfl

/-! ## Lines of a generated checksum list -/

theorem copyFileToDestination_trace (src dst : QString) (w : World) :
    (copyFileToDestination src dst w).trace =
      w.trace ++ [Event.copyFileToDestination src dst] := by
  rfl

theorem afterLine_trace (env : Env) (w : World) (m d : QString) :
    (afterLine env w m d).trace = w.trace ++ lineEvents env w m d := by
  unfold afterLine lineEvents
  split
  · split
    · rfl
    · simp [copyFileToDestination_trace, displaySplash, record, repairBlock, hashEvent]
  · simp [copyFileToDestination_trace, displaySplash, record, repairBlock]

theorem foldlM_checkLine_blocks (env : Env) (lines : List QString)
    (h : ∀ l ∈ lines, (recovery_path l).isSome = true) :
    ∀ w : World, ∃ (w2 : World) (blocks : List (List Event)),
      lines.foldlM (checkLine env) w = Except.ok w2 ∧
      w2.trace = w.trace ++ blocks.flatten ∧
      List.Forall₂ LineOutcome lines blocks := by
  induction lines with
  | nil => intro w; exact ⟨w, [], rfl, by simp, List.Forall₂.nil⟩
  | cons l ls ih =>
    intro w
    obtain ⟨m, hm⟩ := Option.isSome_iff_exists.mp (h l (List.mem_cons_self _ _))
    obtain ⟨w2, blocks, hw2, htr, hall⟩ := ih (fun l2 hl2 => h l2 (List.mem_cons_of_mem _ hl2))
      (afterLine env w m (firstField l))
    refine ⟨w2, lineEvents env w m (firstField l) :: blocks, ?_, ?_, ?_⟩
    · rw [List.foldlM_cons, checkLine_eq_afterLine env w l m hm]
      exact hw2
    · rw [htr, afterLine_trace, List.flatten_cons, List.append_assoc]
    · refine List.Forall₂.cons ⟨m, hm, ?_⟩ hall
      unfold lineEvents
      split
      · split
        · exact Or.inr (Or.inl rfl)
        · exact Or.inr (Or.inr rfl)
      · exact Or.inl rfl

/-- Claim C2: for a line of the checksum list with path field `m` and checksum field `d`,
with tested path `rootfs_path m`, the loop body of `checkForRecovery` does exactly one of:
the tested file does not exist, and it shows the warning splash and copies `m` to the
tested path; the file exists and the first field of the hasher's output differs from `d`,
and it shows the warning splash and copies likewise; the file exists and the digests are
equal, and it only called the hasher, the filesystem is unchanged. When every line has a
path field, the check ends without a fault and its events are one such block for each line
of the list, in order. -/
theorem checkForRecovery_line_by_line (env : Env) (w : World) :
    (∀ line m, recovery_path line = some m →
      ∃ d, recovery_sum line = some d ∧
        (fileExists w.fs (rootfs_path m) = false →
          checkLine env w line = Except.ok
            (copyFileToDestination m (rootfs_path m) (displaySplash WARNING_SPLASH w))) ∧
        (fileExists w.fs (rootfs_path m) = true →
          firstField (env.exec w.fs SHA1SUM [rootfs_path m]) ≠ d →
          checkLine env w line = Except.ok
            (copyFileToDestination m (rootfs_path m) (displaySplash WARNING_SPLASH
              (record (hashEvent m) w)))) ∧
        (fileExists w.fs (rootfs_path m) = true →
          firstField (env.exec w.fs SHA1SUM [rootfs_path m]) = d →
          checkLine env w line = Except.ok { fs := w.fs, trace := w.trace ++ [hashEvent m] })) ∧
    (∀ lines, readLines w.fs checksumPath = some lines →
      (∀ l ∈ lines, (recovery_path l).isSome = true) →
      ∃ (w2 : World) (blocks : List (List Event)),
        checkForRecovery env w = Except.ok w2 ∧
        w2.trace = w.trace ++ blocks.flatten ∧
        List.Forall₂ LineOutcome lines blocks) := by
  constructor
  · intro line m hm
    refine ⟨firstField line, recovery_sum_eq line, ?_, ?_, ?_⟩
    · intro hex
      rw [checkLine_eq_afterLine env w line m hm]
      simp [afterLine, hex]
    · intro hex hsum
      rw [checkLine_eq_afterLine env w line m hm]
      simp only [afterLine, hex, if_true, if_neg hsum]
      rfl
    · intro hex hsum
      rw [checkLine_eq_afterLine env w line m hm]
      simp only [afterLine, hex, if_true, if_pos hsum]
      rfl
  · intro lines hread hall
    unfold checkForRecovery
    rw [hread]
    exact foldlM_checkLine_blocks env lines hall w

theorem checkForRecovery_line_by_line_witness :
    ∃ (w2 : World) (blocks : List (List Event)),
      checkForRecovery demoEnv { fs := demoFsWithList, trace := [] } = Except.ok w2 ∧
      w2.trace = [] ++ blocks.flatten ∧
      List.Forall₂ LineOutcome ["v2  /mnt/recovery/mnt/app/hm".toList] blocks :=
  (checkForRecovery_line_by_line demoEnv { fs := demoFsWithList, trace := [] }).2
    ["v2  /mnt/recovery/mnt/app/hm".toList] (by decide) (by decide)

/-! ## Which events a step can add -/

theorem keeps_mono (X Y : List QString) (hXY : ∀ q, q ∈ X → q ∈ Y) (w w2 : World)
    (h : Keeps X w w2) : Keeps Y w w2 := by
  obtain ⟨t, ht, hk⟩ := h
  exact ⟨t, ht, fun q n hq hY hcopy => hk q n hq (fun hX => hY (hXY q hX)) hcopy⟩

end InspRecovery
